import Mathlib

/-!
Verification of the Thinkstruct patent search engine
(`backend/services/search_engine.py`).

Strings from the Python side are modelled as `List Char` so that every
operation (upper-casing, substring search, lexicographic comparison,
Python's `str.replace`) is an executable structural recursion.  Similarity
scores are modelled as rationals.  The neural embedding model
(`SentenceTransformer.encode`) and the Python constructs whose output
order depends on hash-based `set` iteration are abstracted as oracle
fields of the engine structure; every other operation is translated
directly from the source.
-/

/-- Python strings, modelled as lists of characters. -/
abbrev Str := List Char

/-- Python `str.upper()` (ASCII-faithful). -/
def toUpperStr (s : Str) : Str := s.map Char.toUpper

/-- Python `str.lower()` (ASCII-faithful). -/
def toLowerStr (s : Str) : Str := s.map Char.toLower

/-- Python `str.strip()`: remove leading and trailing whitespace. -/
def stripWs (s : Str) : Str :=
  ((s.dropWhile Char.isWhitespace).reverse.dropWhile Char.isWhitespace).reverse

/-- Python `str.replace("US", "")`: delete every (leftmost-first,
non-overlapping) occurrence of the two-character substring `US`. -/
def removeUS : Str → Str
  | [] => []
  | 'U' :: 'S' :: rest => removeUS rest
  | c :: rest => c :: removeUS rest

/-- Python `str.replace(c, "")` for a single character `c`. -/
def removeChar (c : Char) (s : Str) : Str := s.filter (fun a => decide (a ≠ c))

/-- Python substring test `pat in s`. -/
def isSubOf (pat : Str) : Str → Bool
  | [] => pat.isEmpty
  | c :: rest => pat.isPrefixOf (c :: rest) || isSubOf pat rest

/-- Python `<` on strings: strict lexicographic order on code points. -/
def ltStr : Str → Str → Bool
  | [], [] => false
  | [], _ :: _ => true
  | _ :: _, [] => false
  | a :: as, b :: bs => if a < b then true else if b < a then false else ltStr as bs

/-- Lexicographic `≤` on strings (used by the spec-style date predicate). -/
def leStr : Str → Str → Bool
  | [], _ => true
  | _ :: _, [] => false
  | a :: as, b :: bs => if a < b then true else if b < a then false else leStr as bs

/-- Python `" ".join(...)`. -/
def joinSp (l : List Str) : Str := List.intercalate [' '] l

/-- Worker for `splitWs`; the accumulator holds the current word reversed. -/
def splitWsAux : Str → Str → List Str
  | [], acc => if acc.isEmpty then [] else [acc.reverse]
  | c :: rest, acc =>
    if c.isWhitespace then
      if acc.isEmpty then splitWsAux rest [] else acc.reverse :: splitWsAux rest []
    else splitWsAux rest (c :: acc)

/-- Python `str.split()`: split on runs of whitespace, dropping empties. -/
def splitWs (s : Str) : List Str := splitWsAux s []

/-- One corpus record, mirroring the JSON patent objects consumed by
`PatentSearchEngine._load_data` (fields read via `patent[...]` /
`patent.get(...)` in the source). -/
structure Patent where
  doc_number : Str
  title : Str
  abstract : Str
  classification : Str
  publication_date : Str
  claims : List Str
  detailed_description : Str
deriving DecidableEq

/-- The record used where Python would fault on an out-of-range index
(never reached when embeddings rows match the corpus). -/
def dfltPatent : Patent := ⟨[], [], [], [], [], [], []⟩

instance : Inhabited Patent := ⟨dfltPatent⟩

/-- Indexing `self.patents[idx]`. -/
def getP (ps : List Patent) (i : ℕ) : Patent := ps.getD i dfltPatent

/-- The search engine state.  `patents` is the loaded corpus.  The three
function fields are oracles abstracting code whose output cannot be
modelled deterministically: `simOf` abstracts the embedding model plus
the cosine-similarity line of `_compute_similarity` (one score per
corpus row for a given query); `matchedClaims` abstracts
`_find_matched_claims` (embeds each claim with the neural model);
`extractFeatures` abstracts `_extract_technical_features` (its output
order depends on Python `set` iteration order); `keyDifferences`
abstracts `_identify_key_differences` (likewise `set`-ordered). -/
structure PatentSearchEngine where
  patents : List Patent
  simOf : Str → List ℚ
  matchedClaims : Str → List Str → List Str
  extractFeatures : Str → List Str
  keyDifferences : Str → Patent → List Str

/-- The `if not claims or self.model is None: return []` guard of
`_find_matched_claims` (the model is loaded before any call made from a
search, so only the empty-claims guard is visible here). -/
def PatentSearchEngine.find_matched_claims (e : PatentSearchEngine)
    (query : Str) (claims : List Str) : List Str :=
  if claims.isEmpty then [] else e.matchedClaims query claims

/-- The contract of `np.argsort(similarities)` (default `kind`): the
output is SOME permutation of the row indices along which the scores
are non-decreasing.  numpy's default sort is introsort, which is NOT
stable, so nothing beyond this is guaranteed — in particular there is
no deterministic relative order among equal scores. -/
def SortsAsc (sims : List ℚ) (perm : List ℕ) : Prop :=
  List.Perm perm (List.range sims.length) ∧
    (perm.map fun i => sims.getD i 0).Pairwise (· ≤ ·)

instance (sims : List ℚ) (perm : List ℕ) : Decidable (SortsAsc sims perm) :=
  have : Decidable (List.Perm perm (List.range sims.length)) := List.decidablePerm _ _
  inferInstanceAs (Decidable (_ ∧ _))

/-- The tail of `_compute_similarity` applied to an arbitrary argsort
output `perm`: `perm[::-1][:top_k]` followed by
`[(int(idx), float(similarities[idx])) for idx in top_indices]`.
Ranking theorems quantify over every `perm` satisfying `SortsAsc`, the
whole behaviour envelope of the unstable source sort. -/
def top_candidates_of (sims : List ℚ) (perm : List ℕ) (top_k : ℕ) :
    List (ℕ × ℚ) :=
  ((perm.reverse).take top_k).map fun i => (i, sims.getD i 0)

/-- Ascending comparison (score, then original index) defining the
stable ascending argsort used below as ONE executable instantiation of
the tie order that `np.argsort` leaves unspecified.  On the small
arrays of the concrete corpora in this file this instantiation
coincides with numpy's actual behaviour (its introsort degenerates to
stable insertion sort below the 16-element cutoff); general theorems
about tie order are stated only against `SortsAsc`. -/
def argRel (sims : List ℚ) (i j : ℕ) : Prop :=
  sims.getD i 0 < sims.getD j 0 ∨ (sims.getD i 0 = sims.getD j 0 ∧ i ≤ j)

instance (sims : List ℚ) : DecidableRel (argRel sims) := fun i j =>
  if h : sims.getD i 0 < sims.getD j 0 then isTrue (Or.inl h)
  else if h2 : sims.getD i 0 = sims.getD j 0 ∧ i ≤ j then isTrue (Or.inr h2)
  else isFalse (by intro hc; cases hc with
    | inl a => exact h a
    | inr b => exact h2 b)

/-- The pure tail of `_compute_similarity`:
`top_indices = np.argsort(similarities)[::-1][:top_k]` followed by
`[(int(idx), float(similarities[idx])) for idx in top_indices]`, with
the argsort instantiated by the stable `argRel` sort (equal to
`top_candidates_of` at that permutation, which satisfies `SortsAsc`).
Used for the executable engine model; no theorem relies on the
instantiated tie order beyond the source's small-array regime. -/
def top_candidates (sims : List ℚ) (top_k : ℕ) : List (ℕ × ℚ) :=
  (((List.insertionSort (argRel sims) (List.range sims.length)).reverse).take top_k).map
    fun i => (i, sims.getD i 0)

/-- `PatentSearchEngine._compute_similarity` (source lines 270-295): the
query is encoded and scored against every row (abstracted by the
`simOf` oracle), then the scores are argsorted ascending, reversed and
truncated to `top_k` (tie order instantiated as in `top_candidates`). -/
def compute_similarity (e : PatentSearchEngine) (query : Str) (top_k : ℕ) :
    List (ℕ × ℚ) :=
  top_candidates (e.simOf query) top_k

/-- `_build_embeddings`: one embedding row per corpus record (the text
encoding itself is abstracted by `enc`). -/
def build_embeddings (enc : Patent → List ℚ) (patents : List Patent) :
    List (List ℚ) := patents.map enc

/-- `_load_or_build_embeddings` (source lines 219-233): if a persisted
`.npy` file exists its contents are loaded as-is, otherwise the
embeddings are built.  `persisted` is the contents of the `.npy` file
when it exists. -/
def load_or_build_embeddings (enc : Patent → List ℚ) (patents : List Patent)
    (persisted : Option (List (List ℚ))) : List (List ℚ) :=
  match persisted with
  | some rows => rows
  | none => build_embeddings enc patents

/-- Python truthiness of an `Optional[str]`: `None` and `""` are falsy. -/
def falsyStr (o : Option Str) : Bool :=
  match o with
  | none => true
  | some s => s.isEmpty

/-- `_filter_by_classification` (source lines 514-531). -/
def filter_by_classification (patents : List Patent) (cands : List (ℕ × ℚ))
    (pfx : Str) : List (ℕ × ℚ) :=
  if pfx.isEmpty then cands
  else cands.filter fun c =>
    (toUpperStr pfx).isPrefixOf (toUpperStr (getP patents c.1).classification)

/-- Keep-condition of the `_filter_by_date` loop body: skip when
`publication_date` is empty, earlier than a truthy `date_from`, or later
than a truthy `date_to`. -/
def date_ok (patents : List Patent) (dFrom dTo : Option Str) (c : ℕ × ℚ) : Bool :=
  let pd := (getP patents c.1).publication_date
  !pd.isEmpty &&
    (match dFrom with
      | none => true
      | some d => d.isEmpty || !ltStr pd d) &&
    (match dTo with
      | none => true
      | some d => d.isEmpty || !ltStr d pd)

/-- `_filter_by_date` (source lines 533-560).  Note the guard
`if not date_from and not date_to` uses Python truthiness, so an
empty-string bound behaves exactly like `None`. -/
def filter_by_date (patents : List Patent) (cands : List (ℕ × ℚ))
    (dFrom dTo : Option Str) : List (ℕ × ℚ) :=
  if falsyStr dFrom && falsyStr dTo then cands
  else cands.filter (date_ok patents dFrom dTo)

/-- The searchable text of `_filter_by_keywords`:
`(title + " " + abstract + " " + " ".join(claims)).lower()` — which is
also the combined text scanned by `_find_overlapping_features`. -/
def searchable_text (p : Patent) : Str :=
  toLowerStr (p.title ++ (' ' :: p.abstract) ++ (' ' :: joinSp p.claims))

/-- `_filter_by_keywords` (source lines 562-593): AND-logic substring
containment of every (lowercased) keyword. -/
def filter_by_keywords (patents : List Patent) (cands : List (ℕ × ℚ))
    (keywords : List Str) : List (ℕ × ℚ) :=
  if keywords.isEmpty then cands
  else cands.filter fun c =>
    keywords.all fun kw => isSubOf (toLowerStr kw) (searchable_text (getP patents c.1))

/-- `_filter_by_title` (source lines 595-615). -/
def filter_by_title (patents : List Patent) (cands : List (ℕ × ℚ))
    (title_query : Str) : List (ℕ × ℚ) :=
  if title_query.isEmpty then cands
  else
    let tq := stripWs (toLowerStr title_query)
    cands.filter fun c => isSubOf tq (toLowerStr (getP patents c.1).title)

/-- `_calculate_risk_level` (source lines 448-470). -/
def calculate_risk_level (similarity : ℚ) : String :=
  if mkRat 9 10 < similarity then "Very High"
  else if mkRat 7 10 ≤ similarity then "High"
  else if mkRat 1 2 ≤ similarity then "Medium"
  else "Low"

/-- `_assess_novelty` (source lines 472-491). -/
def assess_novelty (similarity : ℚ) : String :=
  if mkRat 17 20 < similarity then "Identical"
  else if mkRat 3 5 ≤ similarity then "Similar"
  else "Novel"

/-- The `CLASSIFICATION_FIELDS` dictionary of the engine class. -/
def classificationField (c : Char) : Option String :=
  if c = 'A' then some "Human Necessities"
  else if c = 'B' then some "Performing Operations; Transporting"
  else if c = 'C' then some "Chemistry; Metallurgy"
  else if c = 'D' then some "Textiles; Paper"
  else if c = 'E' then some "Fixed Constructions"
  else if c = 'F' then some "Mechanical Engineering"
  else if c = 'G' then some "Physics"
  else if c = 'H' then some "Electricity"
  else none

/-- `_get_technical_field` (source lines 493-508). -/
def get_technical_field : Str → String
  | [] => "Unknown"
  | c :: _ => (classificationField c.toUpper).getD "Unknown"

/-- Does the (lowercased) text continue with `\s*\d` — zero or more
whitespace characters and then a digit? -/
def wsThenDigit : Str → Bool
  | [] => false
  | c :: rest => if c.isWhitespace then wsThenDigit rest else c.isDigit

/-- Does the text continue with `\s+\d` — at least one whitespace
character, then (after any further whitespace) a digit? -/
def wsPlusThenDigit : Str → Bool
  | [] => false
  | c :: rest => c.isWhitespace && wsThenDigit rest

/-- Does the regex `claim\s+\d+|claims\s+\d+` match at the start of the
text? -/
def claimRefHere (s : Str) : Bool :=
  match s with
  | 'c' :: 'l' :: 'a' :: 'i' :: 'm' :: rest =>
    wsPlusThenDigit rest ||
      (match rest with
        | 's' :: rest2 => wsPlusThenDigit rest2
        | _ => false)
  | _ => false

/-- Python `re.search(r'claim\s+\d+|claims\s+\d+', s)`: does the pattern
match anywhere in `s`? -/
def hasClaimRef : Str → Bool
  | [] => false
  | c :: rest => claimRefHere (c :: rest) || hasClaimRef rest

/-- `_extract_independent_claims` (source lines 301-322): keep claims
with no back-reference to another claim, always keeping claim #1, then
cap at 3. -/
def extract_independent_claims (claims : List Str) : List Str :=
  ((claims.enum.filter fun ic => !hasClaimRef (toLowerStr ic.2) || ic.1 == 0).map
    (fun ic => ic.2)).take 3

/-- `_find_overlapping_features` (source lines 394-421): a query feature
overlaps a record when at least half of its words longer than three
characters occur in the record's combined lowercased text. -/
def find_overlapping_features (query_features : List Str) (p : Patent) : List Str :=
  let text := searchable_text p
  query_features.filter fun f =>
    let kws := (splitWs f).filter fun w => decide (3 < w.length)
    !kws.isEmpty && decide (kws.length ≤ 2 * kws.countP fun kw => isSubOf kw text)

/-- Round `q * 10000` to the nearest integer, ties to even (the
rounding mode of Python's `round`), computed on the numerator and
denominator: with `t = num * 10000`, `d = den` and `f = ⌊t / d⌋`, the
fractional part is `r / d` where `r = t - f * d`. -/
def roundHalfEven4 (q : ℚ) : ℤ :=
  let t := q.num * 10000
  let d := (q.den : ℤ)
  let f := t.fdiv d
  let r := t - f * d
  if 2 * r < d then f
  else if d < 2 * r then f + 1
  else if f % 2 = 0 then f else f + 1

/-- Python `round(x, 4)` on the rational model of a score (binary
floating-point artifacts are outside the model). -/
def round4 (q : ℚ) : ℚ := mkRat (roundHalfEven4 q) 10000

/-- Worker computing the `doc_number -> index` dictionary lookup of
`_load_data`: the dict comprehension lets a later duplicate key
overwrite an earlier one, so lookup yields the index of the LAST record
with the given `doc_number`. -/
def docIndexFrom (d : Str) : List Patent → ℕ → Option ℕ
  | [], _ => none
  | p :: rest, i =>
    match docIndexFrom d rest (i + 1) with
    | some j => some j
    | none => if p.doc_number = d then some i else none

/-- Lookup in `self._doc_index`. -/
def docIndex (patents : List Patent) (d : Str) : Option ℕ := docIndexFrom d patents 0

/-- Normalization applied to the INPUT of `get_patent_by_id`:
`doc_number.strip().upper().replace("US", "").replace("-", "").replace(" ", "")`.
Note `replace` deletes EVERY occurrence of `US`, not only a leading
prefix. -/
def normalize_query (d : Str) : Str :=
  removeChar ' ' (removeChar '-' (removeUS (toUpperStr (stripWs d))))

/-- Normalization applied to each RECORD's `doc_number` inside the
fallback loop of `get_patent_by_id` (same chain, without `strip()`). -/
def normalize_record (d : Str) : Str :=
  removeChar ' ' (removeChar '-' (removeUS (toUpperStr d)))

/-- `get_patent_by_id` (source lines 174-200): exact dictionary lookup
first, then a linear scan comparing normalized document numbers. -/
def get_patent_by_id (patents : List Patent) (doc_number : Str) : Option Patent :=
  let normalized := normalize_query doc_number
  match docIndex patents doc_number with
  | some i => some (getP patents i)
  | none =>
    patents.find? fun p =>
      decide (normalize_record p.doc_number = normalized) ||
        decide (p.doc_number = doc_number)

/-- `InvalidityResult` dataclass (source lines 28-46). -/
structure InvalidityResult where
  doc_number : Str
  title : Str
  abstract : Str
  classification : Str
  publication_date : Str
  similarity_score : ℚ
  matched_claims : List Str
  independent_claims : List Str
  claims_count : ℕ
  all_claims : List Str
  detailed_description : Str
deriving DecidableEq, Inhabited

/-- `InfringementResult` dataclass (source lines 49-67). -/
structure InfringementResult where
  doc_number : Str
  title : Str
  abstract : Str
  classification : Str
  publication_date : Str
  similarity_score : ℚ
  risk_level : String
  matched_claims : List Str
  overlapping_features : List Str
  all_claims : List Str
  detailed_description : Str
deriving DecidableEq, Inhabited

/-- `PatentabilityResult` dataclass (source lines 70-90). -/
structure PatentabilityResult where
  doc_number : Str
  title : Str
  abstract : Str
  classification : Str
  publication_date : Str
  similarity_score : ℚ
  novelty_assessment : String
  closest_prior_art : Bool
  key_differences : List Str
  matched_claims : List Str
  technical_field : String
  all_claims : List Str
  detailed_description : Str
deriving DecidableEq, Inhabited

/-- `PatentIdSearchResult` dataclass (source lines 93-108). -/
structure PatentIdSearchResult where
  doc_number : Str
  title : Str
  abstract : Str
  classification : Str
  publication_date : Str
  similarity_score : ℚ
  matched_claims : List Str
  all_claims : List Str
  detailed_description : Str
deriving DecidableEq, Inhabited

/-- Result construction of the `invalidity_search` loop body. -/
def mkInvalidity (e : PatentSearchEngine) (query_claims : Str) (c : ℕ × ℚ) :
    InvalidityResult :=
  let p := getP e.patents c.1
  ⟨p.doc_number, p.title, p.abstract, p.classification, p.publication_date,
    round4 c.2, e.find_matched_claims query_claims p.claims,
    extract_independent_claims p.claims, p.claims.length, p.claims.take 10,
    p.detailed_description.take 500⟩

/-- `invalidity_search` (source lines 621-683). -/
def invalidity_search (e : PatentSearchEngine) (query_claims query_doc_number : Str)
    (classification : Str) (keywords : List Str) (title_search : Str)
    (target_date : Option Str) (top_k : ℕ) : List InvalidityResult :=
  let c1 := compute_similarity e query_claims 100
  let c2 := filter_by_classification e.patents c1 classification
  let c3 := filter_by_keywords e.patents c2 keywords
  let c4 := filter_by_title e.patents c3 title_search
  let c5 := if falsyStr target_date then c4 else filter_by_date e.patents c4 none target_date
  (c5.take top_k).map (mkInvalidity e query_claims)

/-- Result construction of the `infringement_search` loop body. -/
def mkInfringement (e : PatentSearchEngine) (my_claims : Str)
    (my_features : List Str) (c : ℕ × ℚ) : InfringementResult :=
  let p := getP e.patents c.1
  ⟨p.doc_number, p.title, p.abstract, p.classification, p.publication_date,
    round4 c.2, calculate_risk_level c.2, e.find_matched_claims my_claims p.claims,
    find_overlapping_features my_features p, p.claims.take 10,
    p.detailed_description.take 500⟩

/-- `infringement_search` (source lines 685-760): rank, filter, apply the
similarity floor, truncate to `top_k`, and skip the user's own patent
inside the result-building loop. -/
def infringement_search (e : PatentSearchEngine) (my_claims my_doc_number : Str)
    (classification : Str) (keywords : List Str) (title_search : Str)
    (date_from date_to : Option Str) (min_similarity : ℚ) (top_k : ℕ) :
    List InfringementResult :=
  let my_features := e.extractFeatures my_claims
  let c1 := compute_similarity e my_claims 100
  let c2 := filter_by_classification e.patents c1 classification
  let c3 := filter_by_date e.patents c2 date_from date_to
  let c4 := filter_by_keywords e.patents c3 keywords
  let c5 := filter_by_title e.patents c4 title_search
  let c6 := c5.filter fun c => decide (min_similarity ≤ c.2)
  ((c6.take top_k).filter fun c =>
      decide ((getP e.patents c.1).doc_number ≠ my_doc_number)).map
    (mkInfringement e my_claims my_features)

/-- Result construction of the `patentability_search` loop body; the
first component of `ic` is the `enumerate` index. -/
def mkPatentability (e : PatentSearchEngine) (query : Str) (ic : ℕ × (ℕ × ℚ)) :
    PatentabilityResult :=
  let p := getP e.patents ic.2.1
  ⟨p.doc_number, p.title, p.abstract, p.classification, p.publication_date,
    round4 ic.2.2, assess_novelty ic.2.2, decide (ic.1 = 0),
    e.keyDifferences query p, e.find_matched_claims query p.claims,
    get_technical_field p.classification, p.claims.take 10,
    p.detailed_description.take 500⟩

/-- `patentability_search` (source lines 762-825). -/
def patentability_search (e : PatentSearchEngine)
    (invention_description draft_claims : Str) (classification : Str)
    (keywords : List Str) (title_search : Str) (top_k : ℕ) :
    List PatentabilityResult :=
  let query :=
    if draft_claims.isEmpty then invention_description
    else invention_description ++ (' ' :: draft_claims)
  let c1 := compute_similarity e query 100
  let c2 := filter_by_classification e.patents c1 classification
  let c3 := filter_by_keywords e.patents c2 keywords
  let c4 := filter_by_title e.patents c3 title_search
  ((c4.take top_k).enum).map (mkPatentability e query)

/-- The query text `search_by_patent_id` derives from the source patent:
`abstract + " " + " ".join(claims[:5])`. -/
def patent_id_query (p : Patent) : Str :=
  p.abstract ++ (' ' :: joinSp (p.claims.take 5))

/-- Result construction of the `search_by_patent_id` loop body. -/
def mkPatentId (e : PatentSearchEngine) (query : Str) (c : ℕ × ℚ) :
    PatentIdSearchResult :=
  let p := getP e.patents c.1
  ⟨p.doc_number, p.title, p.abstract, p.classification, p.publication_date,
    round4 c.2, e.find_matched_claims query p.claims, p.claims.take 10,
    p.detailed_description.take 500⟩

/-- `search_by_patent_id` (source lines 827-889). -/
def search_by_patent_id (e : PatentSearchEngine) (doc_number : Str)
    (classification : Str) (top_k : ℕ) :
    Option Patent × List PatentIdSearchResult :=
  match get_patent_by_id e.patents doc_number with
  | none => (none, [])
  | some src =>
    let query := patent_id_query src
    let c1 := compute_similarity e query 100
    let c2 := filter_by_classification e.patents c1 classification
    let srcIdx := docIndex e.patents src.doc_number
    let c3 := c2.filter fun c => decide (some c.1 ≠ srcIdx)
    (some src, (c3.take top_k).map (mkPatentId e query))

/-- Modelled from the spec's wording of the date filter: a candidate's
`publication_date` must lie within `[date_from, date_to]` inclusive
(lexicographic order on ISO date strings), where a missing-or-empty
bound is unbounded on that side. -/
def within_bounds (dFrom dTo : Option Str) (pd : Str) : Bool :=
  (match dFrom with
    | none => true
    | some d => d.isEmpty || leStr d pd) &&
  (match dTo with
    | none => true
    | some d => d.isEmpty || leStr pd d)

/-- The date filter as the amended claim words it: unchanged input when
both bounds are missing or empty, otherwise keep exactly the candidates
with a non-empty `publication_date` inside the inclusive interval. -/
def filter_by_date_amended (patents : List Patent) (cands : List (ℕ × ℚ))
    (dFrom dTo : Option Str) : List (ℕ × ℚ) :=
  if falsyStr dFrom && falsyStr dTo then cands
  else cands.filter fun c =>
    let pd := (getP patents c.1).publication_date
    !pd.isEmpty && within_bounds dFrom dTo pd

/-- Modelled from the claim's wording of the lookup normalization:
uppercase, strip whitespace and hyphens, and strip a LEADING `US`
prefix (only a leading occurrence). -/
def normalize_claim (d : Str) : Str :=
  let base := removeChar ' ' (removeChar '-' (toUpperStr (stripWs d)))
  match base with
  | 'U' :: 'S' :: rest => rest
  | _ => base

/-- Concrete corpus record used by witnesses. -/
def pW1 : Patent := ⟨['A'], ['t'], ['a'], ['B'], ['2'], [], []⟩

/-- Second concrete corpus record used by witnesses. -/
def pW2 : Patent := ⟨['B'], ['u'], ['b'], ['B'], ['3'], [], []⟩

/-- Concrete two-record engine used by witnesses; the similarity oracle
gives row 0 score 1 and row 1 score 1/2 for every query. -/
def egW : PatentSearchEngine :=
  ⟨[pW1, pW2], fun _ => [1, mkRat 1 2], fun _ _ => [], fun _ => [], fun _ _ => []⟩

/-- Concrete engine whose similarity oracle scores both rows equally,
exhibiting the tie-break order of `_compute_similarity`. -/
def egTie : PatentSearchEngine :=
  ⟨[dfltPatent, dfltPatent], fun _ => [1, 1], fun _ _ => [], fun _ => [], fun _ _ => []⟩

/-- Record whose `doc_number` is `"12"`, matched by the query `"1US2"`
after the source's replace-all normalization. -/
def pTwelve : Patent := ⟨['1', '2'], [], [], [], [], [], []⟩

/-- The query string `"1US2"`, whose interior `US` is deleted by the
source's normalization. -/
def q1US2 : Str := ['1', 'U', 'S', '2']

/-- Record with an empty `publication_date`. -/
def pEmptyDate : Patent := ⟨['E'], [], [], [], [], [], []⟩

/-- Modelled from the amended claim's wording of `get_patent_by_id`:
exact lookup first (the doc-number dictionary maps a duplicated
`doc_number` to its LAST occurrence, since later dict entries
overwrite earlier ones), then the FIRST record whose normalized
`doc_number` equals the normalized input. -/
def get_patent_by_id_amended (patents : List Patent) (d : Str) : Option Patent :=
  match (patents.filter fun p => decide (p.doc_number = d)).getLast? with
  | some p => some p
  | none =>
    patents.find? fun p => decide (normalize_record p.doc_number = normalize_query d)

/-- Record with `doc_number` `"1-2"`, which also normalizes to `"12"` —
a second normalized match for the query `"1US2"`, exercising the
first-match rule of the fallback scan. -/
def pOneHy2 : Patent := ⟨['1', '-', '2'], [], [], [], [], [], []⟩

instance (sims : List ℚ) : IsTotal ℕ (argRel sims) := by
  constructor
  intro i j
  rcases lt_trichotomy (sims.getD i 0) (sims.getD j 0) with h | h | h
  · exact Or.inl (Or.inl h)
  · rcases Nat.le_total i j with hle | hle
    · exact Or.inl (Or.inr ⟨h, hle⟩)
    · exact Or.inr (Or.inr ⟨h.symm, hle⟩)
  · exact Or.inr (Or.inl h)

instance (sims : List ℚ) : IsTrans ℕ (argRel sims) := by
  constructor
  intro a b c hab hbc
  cases hab with
  | inl h1 =>
    cases hbc with
    | inl h2 => exact Or.inl (h1.trans h2)
    | inr h2 => exact Or.inl (h2.1 ▸ h1)
  | inr h1 =>
    cases hbc with
    | inl h2 => exact Or.inl (by rw [h1.1]; exact h2)
    | inr h2 => exact Or.inr ⟨h1.1.trans h2.1, h1.2.trans h2.2⟩

theorem filter_idem (p : α → Bool) (l : List α) :
    (l.filter p).filter p = l.filter p := by
  induction l with
  | nil => rfl
  | cons a l ih =>
    by_cases h : p a <;> simp [List.filter_cons, h, ih]

theorem filter_comm (p q : α → Bool) (l : List α) :
    (l.filter p).filter q = (l.filter q).filter p := by
  induction l with
  | nil => rfl
  | cons a l ih =>
    by_cases hp : p a <;> by_cases hq : q a <;> simp [List.filter_cons, hp, hq, ih]

theorem ltStr_not_leStr (a b : Str) : ltStr a b = !leStr b a := by
  induction a generalizing b with
  | nil => cases b <;> rfl
  | cons c as ih =>
    cases b with
    | nil => rfl
    | cons d bs =>
      simp only [ltStr, leStr]
      by_cases h1 : c < d
      · have h2 : ¬ d < c := asymm h1
        simp [h1, h2]
      · by_cases h2 : d < c
        · simp [h1, h2]
        · simp [h1, h2, ih bs]

theorem getP_mem (ps : List Patent) (k : ℕ) (h : k < ps.length) : getP ps k ∈ ps := by
  unfold getP
  rw [List.getD_eq_getElem ps dfltPatent h]
  exact List.getElem_mem h

theorem docIndexFrom_eq_none_iff (d : Str) (ps : List Patent) (i : ℕ) :
    docIndexFrom d ps i = none ↔ ∀ p ∈ ps, p.doc_number ≠ d := by
  induction ps generalizing i with
  | nil => simp [docIndexFrom]
  | cons p rest ih =>
    simp only [docIndexFrom]
    cases h : docIndexFrom d rest (i + 1) with
    | some j =>
      simp only [reduceCtorEq, false_iff]
      intro hall
      have hnone : docIndexFrom d rest (i + 1) = none :=
        (ih (i + 1)).mpr fun q hq => hall q (List.mem_cons_of_mem _ hq)
      rw [h] at hnone
      exact absurd hnone (by simp)
    | none =>
      by_cases hd : p.doc_number = d
      · rw [if_pos hd]
        simp only [reduceCtorEq, false_iff]
        intro hall
        exact hall p (List.mem_cons_self p rest) hd
      · rw [if_neg hd]
        simp only [List.forall_mem_cons, true_iff]
        exact ⟨hd, (ih (i + 1)).mp h⟩

theorem docIndexFrom_some_get (d : Str) (ps : List Patent) (i j : ℕ)
    (h : docIndexFrom d ps i = some j) :
    ∃ k, k < ps.length ∧ j = i + k ∧ (getP ps k).doc_number = d := by
  induction ps generalizing i with
  | nil => exact absurd h (by simp [docIndexFrom])
  | cons p rest ih =>
    simp only [docIndexFrom] at h
    cases hr : docIndexFrom d rest (i + 1) with
    | some j2 =>
      rw [hr] at h
      obtain rfl : j2 = j := by injection h
      obtain ⟨k, hk, hjk, hdoc⟩ := ih (i + 1) hr
      refine ⟨k + 1, by simpa using hk, by omega, ?_⟩
      simpa [getP] using hdoc
    | none =>
      rw [hr] at h
      by_cases hd : p.doc_number = d
      · rw [if_pos hd] at h
        obtain rfl : i = j := by injection h
        exact ⟨0, by simp, by omega, hd⟩
      · rw [if_neg hd] at h
        exact absurd h (by simp)

theorem get_patent_by_id_none_iff (patents : List Patent) (d : Str) :
    get_patent_by_id patents d = none ↔
      ∀ p ∈ patents, p.doc_number ≠ d ∧ normalize_record p.doc_number ≠ normalize_query d := by
  unfold get_patent_by_id
  cases h : docIndex patents d with
  | some i =>
    simp only [reduceCtorEq, false_iff]
    intro hall
    obtain ⟨k, hk, _, hdoc⟩ := docIndexFrom_some_get d patents 0 i h
    exact (hall (getP patents k) (getP_mem patents k hk)).1 hdoc
  | none =>
    have hnone := (docIndexFrom_eq_none_iff d patents 0).mp h
    rw [List.find?_eq_none]
    constructor
    · intro hall p hp
      have := hall p hp
      simp only [Bool.or_eq_true, decide_eq_true_eq, not_or] at this
      exact ⟨this.2, this.1⟩
    · intro hall p hp
      simp only [Bool.or_eq_true, decide_eq_true_eq, not_or]
      exact ⟨(hall p hp).2, (hall p hp).1⟩

theorem get_patent_by_id_some (patents : List Patent) (d : Str) (p : Patent)
    (h : get_patent_by_id patents d = some p) :
    p ∈ patents ∧ (p.doc_number = d ∨ normalize_record p.doc_number = normalize_query d) := by
  unfold get_patent_by_id at h
  cases hidx : docIndex patents d with
  | some i =>
    rw [hidx] at h
    obtain rfl : getP patents i = p := by injection h
    obtain ⟨k, hk, hik, hdoc⟩ := docIndexFrom_some_get d patents 0 i hidx
    obtain rfl : i = k := by omega
    exact ⟨getP_mem patents i hk, Or.inl hdoc⟩
  | none =>
    rw [hidx] at h
    refine ⟨List.mem_of_find?_eq_some h, ?_⟩
    have := List.find?_some h
    simp only [Bool.or_eq_true, decide_eq_true_eq] at this
    exact this.symm.imp id id

theorem find?_congr_mem (p q : α → Bool) (l : List α)
    (h : ∀ a ∈ l, p a = q a) : l.find? p = l.find? q := by
  induction l with
  | nil => rfl
  | cons a t ih =>
    have ha := h a (List.mem_cons_self a t)
    cases hq : q a with
    | true =>
      rw [List.find?_cons_of_pos t (ha.trans hq), List.find?_cons_of_pos t hq]
    | false =>
      rw [List.find?_cons_of_neg t (by simp [ha, hq]),
        List.find?_cons_of_neg t (by simp [hq])]
      exact ih fun b hb => h b (List.mem_cons_of_mem a hb)

theorem docIndexFrom_getLast (d : Str) (ps : List Patent) :
    ∀ (i j : ℕ), docIndexFrom d ps i = some j →
      (ps.filter fun p => decide (p.doc_number = d)).getLast? =
        some (getP ps (j - i)) := by
  induction ps with
  | nil => intro i j h; exact absurd h (by simp [docIndexFrom])
  | cons p rest ih =>
    intro i j h
    simp only [docIndexFrom] at h
    cases hr : docIndexFrom d rest (i + 1) with
    | some j2 =>
      rw [hr] at h
      have hj : j2 = j := by injection h
      rw [hj] at hr
      have hih := ih (i + 1) j hr
      have hne : (rest.filter fun p => decide (p.doc_number = d)) ≠ [] := by
        intro h0
        rw [h0] at hih
        exact absurd hih (by simp)
      have hstep : j - i = (j - (i + 1)) + 1 := by
        obtain ⟨k, hk, hjk, _⟩ := docIndexFrom_some_get d rest (i + 1) j hr
        omega
      have hgp : getP (p :: rest) (j - i) = getP rest (j - (i + 1)) := by
        rw [hstep]
        rfl
      rw [hgp, List.filter_cons]
      by_cases hd : decide (p.doc_number = d) = true
      · rw [if_pos hd]
        obtain ⟨x, xs, hxe⟩ := List.exists_cons_of_ne_nil hne
        rw [hxe, List.getLast?_cons_cons, ← hxe]
        exact hih
      · rw [if_neg hd]
        exact hih
    | none =>
      rw [hr] at h
      by_cases hd : p.doc_number = d
      · rw [if_pos hd] at h
        obtain rfl : i = j := by injection h
        have hrestnil : (rest.filter fun p => decide (p.doc_number = d)) = [] := by
          rw [List.filter_eq_nil_iff]
          intro a ha
          simp only [decide_eq_true_eq]
          exact (docIndexFrom_eq_none_iff d rest (i + 1)).mp hr a ha
        rw [List.filter_cons, if_pos (by simp [hd]), hrestnil]
        simp [getP]
      · rw [if_neg hd] at h
        exact absurd h (by simp)

theorem get_patent_by_id_eq_amended (patents : List Patent) (d : Str) :
    get_patent_by_id patents d = get_patent_by_id_amended patents d := by
  unfold get_patent_by_id get_patent_by_id_amended
  cases hidx : docIndex patents d with
  | some i =>
    have hlast := docIndexFrom_getLast d patents 0 i hidx
    rw [Nat.sub_zero] at hlast
    rw [hlast]
  | none =>
    have hnone := (docIndexFrom_eq_none_iff d patents 0).mp hidx
    have hfilter : (patents.filter fun p => decide (p.doc_number = d)) = [] := by
      rw [List.filter_eq_nil_iff]
      intro a ha
      simp only [decide_eq_true_eq]
      exact hnone a ha
    rw [hfilter]
    exact find?_congr_mem _ _ patents fun a ha => by simp [hnone a ha]

/-- C3 counterexample: with a two-record corpus and a persisted
embeddings file holding a single row, `_load_or_build_embeddings` keeps
the mismatched one-row array instead of rebuilding, so the embedding
array does NOT have one row per corpus record. -/
theorem C3_counterexample :
    (load_or_build_embeddings (fun _ => [0]) [dfltPatent, dfltPatent]
        (some [[1]])).length ≠ ([dfltPatent, dfltPatent] : List Patent).length := by
  decide

/-- C3 (amended): `_load_or_build_embeddings` performs no row-count
validation at all — a persisted file is loaded as-is whatever its row
count, and only when no file exists are the embeddings built, in which
case there is exactly one row per corpus record. -/
theorem C3_load_no_validation :
    ∀ (enc : Patent → List ℚ) (patents : List Patent),
      (load_or_build_embeddings enc patents none).length = patents.length ∧
      ∀ rows, load_or_build_embeddings enc patents (some rows) = rows := by
  intro enc patents
  exact ⟨by simp [load_or_build_embeddings, build_embeddings], fun rows => rfl⟩

/-- C4: `_calculate_risk_level` boundaries — strictly above 0.9 gives
"Very High", exactly 0.9 and exactly 0.7 give "High", exactly 0.5 gives
"Medium", and anything below 0.5 gives "Low". -/
theorem C4_risk_boundaries :
    (∀ s : ℚ, mkRat 9 10 < s → calculate_risk_level s = "Very High") ∧
    calculate_risk_level (mkRat 9 10) = "High" ∧
    calculate_risk_level (mkRat 7 10) = "High" ∧
    calculate_risk_level (mkRat 1 2) = "Medium" ∧
    (∀ s : ℚ, s < mkRat 1 2 → calculate_risk_level s = "Low") := by
  refine ⟨fun s h => ?_, by decide, by decide, by decide, fun s h => ?_⟩
  · rw [calculate_risk_level, if_pos h]
  · have h9 : ¬ mkRat 9 10 < s := by
      intro hc
      exact absurd (hc.trans h) (by decide)
    have h7 : ¬ mkRat 7 10 ≤ s := by
      intro hc
      exact absurd (lt_of_le_of_lt hc h) (by decide)
    rw [calculate_risk_level, if_neg h9, if_neg h7, if_neg (not_le.mpr h)]

/-- Witness for C4 at the concrete scores 1 and 0. -/
theorem C4_risk_boundaries_witness :
    calculate_risk_level 1 = "Very High" ∧ calculate_risk_level 0 = "Low" :=
  ⟨C4_risk_boundaries.1 1 (by decide), C4_risk_boundaries.2.2.2.2 0 (by decide)⟩

/-- C7 counterexample: with the bound `date_from = ""` supplied (a
falsy Python string), `_filter_by_date` returns its input unchanged, so
a candidate whose record has an empty `publication_date` survives even
though a bound was supplied. -/
theorem C7_counterexample :
    (getP [pEmptyDate] 0).publication_date = [] ∧
    filter_by_date [pEmptyDate] [(0, 1)] (some []) none = [(0, 1)] := by
  constructor
  · rfl
  · rfl

/-- C7 (amended): a bound that is `None` OR the empty string counts as
missing.  When both bounds are missing the input is returned unchanged
(empty-date records included); otherwise exactly the candidates with a
non-empty `publication_date` lying in the inclusive interval survive,
and every record with an empty `publication_date` is excluded. -/
theorem C7_date_filter :
    ∀ (patents : List Patent) (cands : List (ℕ × ℚ)) (dFrom dTo : Option Str),
      filter_by_date patents cands dFrom dTo =
        filter_by_date_amended patents cands dFrom dTo ∧
      filter_by_date patents cands none none = cands ∧
      filter_by_date patents cands (some []) none = cands := by
  intro patents cands dFrom dTo
  refine ⟨?_, rfl, rfl⟩
  unfold filter_by_date filter_by_date_amended
  by_cases hguard : (falsyStr dFrom && falsyStr dTo) = true
  · rw [if_pos hguard, if_pos hguard]
  · rw [if_neg hguard, if_neg hguard]
    apply List.filter_congr
    intro c _
    unfold date_ok within_bounds
    cases dFrom with
    | none =>
      cases dTo with
      | none => simp
      | some d => simp [ltStr_not_leStr, Bool.and_assoc]
    | some d =>
      cases dTo with
      | none => simp [ltStr_not_leStr, Bool.and_assoc]
      | some d2 => simp [ltStr_not_leStr, Bool.and_assoc]

/-- C8: the classification and keyword filters are idempotent, they
commute as list transformations (so in particular as sets), and each
returns an order-preserving sublist, so relative score order is kept. -/
theorem C8_filter_algebra :
    ∀ (patents : List Patent) (cands : List (ℕ × ℚ)) (pfx : Str) (kws : List Str),
      filter_by_classification patents (filter_by_classification patents cands pfx) pfx =
        filter_by_classification patents cands pfx ∧
      filter_by_keywords patents (filter_by_keywords patents cands kws) kws =
        filter_by_keywords patents cands kws ∧
      filter_by_classification patents (filter_by_keywords patents cands kws) pfx =
        filter_by_keywords patents (filter_by_classification patents cands pfx) kws ∧
      List.Sublist (filter_by_classification patents cands pfx) cands ∧
      List.Sublist (filter_by_keywords patents cands kws) cands := by
  intro patents cands pfx kws
  by_cases hp : pfx.isEmpty <;> by_cases hk : kws.isEmpty <;>
    simp [filter_by_classification, filter_by_keywords, hp, hk, filter_idem,
      filter_comm, List.filter_sublist, List.Sublist.refl, Bool.and_comm]

/-- C9 counterexample: the source normalization deletes EVERY occurrence
of `US`, so the query `"1US2"` finds the record `"12"` although the
record does not match exactly and does not match under the claimed
leading-prefix-only normalization. -/
theorem C9_counterexample :
    get_patent_by_id [pTwelve] q1US2 = some pTwelve ∧
    pTwelve.doc_number ≠ q1US2 ∧
    normalize_claim pTwelve.doc_number ≠ normalize_claim q1US2 := by
  refine ⟨?_, by decide, by decide⟩
  rfl

/-- C9 (amended): `get_patent_by_id` equals the spec-style lookup that
performs the exact lookup first (the doc-number dictionary maps a
duplicated `doc_number` to its last occurrence) and otherwise returns
the FIRST record whose `doc_number`, normalized by uppercasing,
trimming surrounding whitespace on the input side, and deleting spaces,
hyphens and EVERY occurrence of `US` (not only a leading one), equals
the identically normalized input; it returns `None` exactly when no
record matches exactly or after this normalization, and any returned
record is a corpus record matching exactly or after normalization. -/
theorem C9_lookup_normalization :
    ∀ (patents : List Patent) (d : Str),
      get_patent_by_id patents d = get_patent_by_id_amended patents d ∧
      (get_patent_by_id patents d = none ↔
        ∀ p ∈ patents,
          p.doc_number ≠ d ∧ normalize_record p.doc_number ≠ normalize_query d) ∧
      ∀ p, get_patent_by_id patents d = some p →
        p ∈ patents ∧
          (p.doc_number = d ∨ normalize_record p.doc_number = normalize_query d) := by
  intro patents d
  exact ⟨get_patent_by_id_eq_amended patents d, get_patent_by_id_none_iff patents d,
    fun p h => get_patent_by_id_some patents d p h⟩

/-- Witness for C9's amended theorem: on a corpus where BOTH records
`"12"` and `"1-2"` normalize to the query `"1US2"`, the lookup agrees
with the spec-style definition and returns the first normalized match
`"12"`; and the returned record matches after replace-all
normalization. -/
theorem C9_lookup_normalization_witness :
    get_patent_by_id [pTwelve, pOneHy2] q1US2 =
      get_patent_by_id_amended [pTwelve, pOneHy2] q1US2 ∧
    get_patent_by_id_amended [pTwelve, pOneHy2] q1US2 = some pTwelve ∧
    pTwelve ∈ [pTwelve] ∧
      (pTwelve.doc_number = q1US2 ∨
        normalize_record pTwelve.doc_number = normalize_query q1US2) :=
  ⟨(C9_lookup_normalization [pTwelve, pOneHy2] q1US2).1, by decide,
    (C9_lookup_normalization [pTwelve] q1US2).2.2 pTwelve (by decide)⟩

theorem C2_self_exclusion (e : PatentSearchEngine) (my_claims my_doc_number : Str)
    (classification : Str) (keywords : List Str) (title_search : Str)
    (date_from date_to : Option Str) (min_similarity : ℚ) (top_k : ℕ) :
    ∀ r ∈ infringement_search e my_claims my_doc_number classification keywords
        title_search date_from date_to min_similarity top_k,
      r.doc_number ≠ my_doc_number := by
  intro r hr
  unfold infringement_search at hr
  rcases List.mem_map.mp hr with ⟨c, hc, rfl⟩
  exact of_decide_eq_true (List.mem_filter.mp hc).2

/-- Witness for C2: on the concrete two-record engine the first result's
document number differs from the monitored `my_doc_number`. -/
theorem C2_self_exclusion_witness :
    ((infringement_search egW ['q'] ['X'] [] [] [] none none 0 5).getD 0
        default).doc_number ≠ ['X'] :=
  C2_self_exclusion egW ['q'] ['X'] [] [] [] none none 0 5 _ (by decide)

/-- C5: in `patentability_search`, the result at position `i` carries
`closest_prior_art = (i == 0)` — true exactly for the first result, and
vacuously no result carries it when the list is empty. -/
theorem C5_closest_flag (e : PatentSearchEngine)
    (invention_description draft_claims : Str) (classification : Str)
    (keywords : List Str) (title_search : Str) (top_k : ℕ) (i : ℕ)
    (h : i < (patentability_search e invention_description draft_claims
        classification keywords title_search top_k).length) :
    ((patentability_search e invention_description draft_claims classification
        keywords title_search top_k).getD i default).closest_prior_art =
      decide (i = 0) := by
  unfold patentability_search at h ⊢
  rw [List.getD_eq_getElem _ _ h, List.getElem_map, List.getElem_enum]
  rfl

/-- Witness for C5: on the concrete two-record engine the flag is true
at position 0 and false at position 1. -/
theorem C5_closest_flag_witness :
    ((patentability_search egW ['d'] [] [] [] [] 5).getD 0
        default).closest_prior_art = true ∧
    ((patentability_search egW ['d'] [] [] [] [] 5).getD 1
        default).closest_prior_art = false :=
  ⟨C5_closest_flag egW ['d'] [] [] [] [] 5 0 (by decide),
   C5_closest_flag egW ['d'] [] [] [] [] 5 1 (by decide)⟩

/-- C6: when no corpus record matches the requested document number
(neither exactly nor after normalization), `search_by_patent_id`
returns the defined empty shape `(None, [])`. -/
theorem C6_not_found (e : PatentSearchEngine) (d : Str) (classification : Str)
    (top_k : ℕ)
    (h : ∀ p ∈ e.patents,
      p.doc_number ≠ d ∧ normalize_record p.doc_number ≠ normalize_query d) :
    search_by_patent_id e d classification top_k = (none, []) := by
  have hn : get_patent_by_id e.patents d = none :=
    (get_patent_by_id_none_iff e.patents d).mpr h
  unfold search_by_patent_id
  rw [hn]

/-- Witness for C6: the concrete two-record engine holds no record
matching `"Z"`, and the search returns `(None, [])`. -/
theorem C6_not_found_witness :
    search_by_patent_id egW ['Z'] [] 5 = (none, []) :=
  C6_not_found egW ['Z'] [] 5 (by decide)

theorem top_candidates_length_le (sims : List ℚ) (k : ℕ) :
    (top_candidates sims k).length ≤ k := by
  unfold top_candidates
  rw [List.length_map]
  exact List.length_take_le _ _

theorem stable_argsort_sortsAsc (sims : List ℚ) :
    SortsAsc sims (List.insertionSort (argRel sims) (List.range sims.length)) := by
  constructor
  · exact List.perm_insertionSort _ _
  · refine List.pairwise_map.mpr ?_
    exact (List.sorted_insertionSort (argRel sims) (List.range sims.length)).imp
      fun hab => hab.elim le_of_lt (fun h2 => le_of_eq h2.1)

theorem top_candidates_eq_of (sims : List ℚ) (k : ℕ) :
    top_candidates sims k =
      top_candidates_of sims (List.insertionSort (argRel sims) (List.range sims.length)) k :=
  rfl

/-- C1 (amended): for every similarity vector and EVERY index
permutation the source's unstable argsort may produce (the `SortsAsc`
contract — numpy's default introsort guarantees nothing more),
`_compute_similarity`'s tail returns at most `top_k` pairs in
non-increasing similarity order.  No relative order among equal scores
is guaranteed — in particular not the claimed increasing
original-index order, which the counterexample refutes. -/
theorem C1_rank_order :
    ∀ (sims : List ℚ) (perm : List ℕ) (top_k : ℕ),
      SortsAsc sims perm →
      (top_candidates_of sims perm top_k).length ≤ top_k ∧
      (top_candidates_of sims perm top_k).Pairwise (fun p q => q.2 ≤ p.2) := by
  intro sims perm top_k h
  constructor
  · rw [top_candidates_of, List.length_map]
    exact List.length_take_le _ _
  · rw [top_candidates_of]
    have hp : perm.Pairwise (fun i j => sims.getD i 0 ≤ sims.getD j 0) :=
      List.pairwise_map.mp h.2
    have hrev : perm.reverse.Pairwise (fun i j => sims.getD j 0 ≤ sims.getD i 0) :=
      List.pairwise_reverse.mpr hp
    have htake := hrev.sublist (List.take_sublist top_k _)
    exact List.pairwise_map.mpr (htake.imp fun hij => hij)

/-- Witness for C1 at the concrete scores `[1, 1/2]` with the (unique)
ascending permutation `[1, 0]`. -/
theorem C1_rank_order_witness :
    (top_candidates_of [1, mkRat 1 2] [1, 0] 2).length ≤ 2 ∧
    (top_candidates_of [1, mkRat 1 2] [1, 0] 2).Pairwise (fun p q => q.2 ≤ p.2) :=
  C1_rank_order [1, mkRat 1 2] [1, 0] 2 (by decide)

/-- C1 counterexample: with two rows of equal score the engine returns
`[(1, 1), (0, 1)]` — index 1 before index 0 — so equal-score candidates
are NOT ordered by increasing original array index.  At this array size
numpy's introsort runs its (stable) insertion-sort phase, so
`np.argsort([1, 1]) = [0, 1]` deterministically and the engine model's
instantiation coincides with the actual source behaviour here. -/
theorem C1_counterexample :
    compute_similarity egTie ['q'] 2 = [(1, 1), (0, 1)] ∧
    ¬ (compute_similarity egTie ['q'] 2).Pairwise
        (fun p q => q.2 ≤ p.2 ∧ (p.2 = q.2 → p.1 < q.1)) := by
  constructor
  · rfl
  · decide

theorem sub_filter_class (ps : List Patent) (cs : List (ℕ × ℚ)) (pfx : Str) :
    List.Sublist (filter_by_classification ps cs pfx) cs := by
  by_cases h : pfx.isEmpty
  · rw [filter_by_classification, if_pos h]
  · rw [filter_by_classification, if_neg h]
    exact List.filter_sublist _

theorem sub_filter_keywords (ps : List Patent) (cs : List (ℕ × ℚ)) (kws : List Str) :
    List.Sublist (filter_by_keywords ps cs kws) cs := by
  by_cases h : kws.isEmpty
  · rw [filter_by_keywords, if_pos h]
  · rw [filter_by_keywords, if_neg h]
    exact List.filter_sublist _

theorem sub_filter_title (ps : List Patent) (cs : List (ℕ × ℚ)) (tq : Str) :
    List.Sublist (filter_by_title ps cs tq) cs := by
  by_cases h : tq.isEmpty
  · rw [filter_by_title, if_pos h]
  · rw [filter_by_title, if_neg h]
    exact List.filter_sublist _

theorem sub_filter_date (ps : List Patent) (cs : List (ℕ × ℚ)) (dF dT : Option Str) :
    List.Sublist (filter_by_date ps cs dF dT) cs := by
  by_cases h : (falsyStr dF && falsyStr dT) = true
  · rw [filter_by_date, if_pos h]
  · rw [filter_by_date, if_neg h]
    exact List.filter_sublist _

theorem pipeline_length_le {α : Type} (base fin : List (ℕ × ℚ))
    (hsub : List.Sublist fin base) (hbase : base.length ≤ 100) (k : ℕ)
    (f : (ℕ × ℚ) → α) : ((fin.take k).map f).length ≤ min k 100 := by
  rw [List.length_map, List.length_take]
  exact min_le_min (le_refl k) (hsub.length_le.trans hbase)

theorem pipeline_subset {α : Type} (base fin : List (ℕ × ℚ))
    (hsub : List.Sublist fin base) (f : (ℕ × ℚ) → α) (doc : α → Str) :
    (fin.map f).map doc ⊆ base.map fun c => doc (f c) := by
  rw [List.map_map]
  exact List.map_subset _ hsub.subset

theorem mem_enumFrom_snd {α : Type} (l : List α) :
    ∀ (n : ℕ) (p : ℕ × α), p ∈ List.enumFrom n l → p.2 ∈ l := by
  induction l with
  | nil => intro n p hp; exact absurd hp (by simp)
  | cons a t ih =>
    intro n p hp
    rcases (List.mem_cons).mp hp with h | h
    · rw [h]
      exact List.mem_cons_self a t
    · exact List.mem_cons_of_mem a (ih (n + 1) p h)

theorem pipeline_filtered_length_le {α : Type} (base fin : List (ℕ × ℚ))
    (hsub : List.Sublist fin base) (hbase : base.length ≤ 100) (k : ℕ)
    (p : ℕ × ℚ → Bool) (f : ℕ × ℚ → α) :
    (((fin.take k).filter p).map f).length ≤ min k 100 := by
  rw [List.length_map]
  refine le_trans (List.length_filter_le _ _) ?_
  rw [List.length_take]
  exact min_le_min (le_refl k) (hsub.length_le.trans hbase)

/-- C10: every scenario search ranks only the top 100 candidates by
similarity before filtering, exclusion or truncation: each result list
has length at most `min top_k 100`, and every result's document number
comes from a record indexed by the 100-candidate ranking of the query
the search embeds. -/
theorem C10_top100_window :
    (∀ (e : PatentSearchEngine) (qc qd cl : Str) (kws : List Str) (ts : Str)
        (td : Option Str) (k : ℕ),
      (invalidity_search e qc qd cl kws ts td k).length ≤ min k 100 ∧
      (invalidity_search e qc qd cl kws ts td k).map InvalidityResult.doc_number ⊆
        (compute_similarity e qc 100).map fun c => (getP e.patents c.1).doc_number) ∧
    (∀ (e : PatentSearchEngine) (mc md cl : Str) (kws : List Str) (ts : Str)
        (dF dT : Option Str) (ms : ℚ) (k : ℕ),
      (infringement_search e mc md cl kws ts dF dT ms k).length ≤ min k 100 ∧
      (infringement_search e mc md cl kws ts dF dT ms k).map
          InfringementResult.doc_number ⊆
        (compute_similarity e mc 100).map fun c => (getP e.patents c.1).doc_number) ∧
    (∀ (e : PatentSearchEngine) (idesc dra cl : Str) (kws : List Str) (ts : Str)
        (k : ℕ),
      (patentability_search e idesc dra cl kws ts k).length ≤ min k 100 ∧
      (patentability_search e idesc dra cl kws ts k).map
          PatentabilityResult.doc_number ⊆
        (compute_similarity e
            (if dra.isEmpty then idesc else idesc ++ (' ' :: dra)) 100).map
          fun c => (getP e.patents c.1).doc_number) ∧
    (∀ (e : PatentSearchEngine) (d cl : Str) (k : ℕ),
      (search_by_patent_id e d cl k).2.length ≤ min k 100 ∧
      ∀ src, get_patent_by_id e.patents d = some src →
        (search_by_patent_id e d cl k).2.map PatentIdSearchResult.doc_number ⊆
          (compute_similarity e (patent_id_query src) 100).map
            fun c => (getP e.patents c.1).doc_number) := by
  refine ⟨?_, ?_, ?_, ?_⟩
  · intro e qc qd cl kws ts td k
    dsimp only [invalidity_search]
    have hb : (compute_similarity e qc 100).length ≤ 100 :=
      top_candidates_length_le _ _
    have h2 := sub_filter_class e.patents (compute_similarity e qc 100) cl
    have h3 := sub_filter_keywords e.patents
      (filter_by_classification e.patents (compute_similarity e qc 100) cl) kws
    have h4 := sub_filter_title e.patents
      (filter_by_keywords e.patents
        (filter_by_classification e.patents (compute_similarity e qc 100) cl) kws) ts
    have h5 : List.Sublist
        (if falsyStr td then
          filter_by_title e.patents
            (filter_by_keywords e.patents
              (filter_by_classification e.patents (compute_similarity e qc 100) cl) kws) ts
        else filter_by_date e.patents
          (filter_by_title e.patents
            (filter_by_keywords e.patents
              (filter_by_classification e.patents (compute_similarity e qc 100) cl) kws) ts)
          none td)
        (filter_by_title e.patents
          (filter_by_keywords e.patents
            (filter_by_classification e.patents (compute_similarity e qc 100) cl) kws) ts) := by
      by_cases hf : falsyStr td = true
      · rw [if_pos hf]
      · rw [if_neg hf]
        exact sub_filter_date _ _ _ _
    have hsub := h5.trans (h4.trans (h3.trans h2))
    constructor
    · exact pipeline_length_le _ _ hsub hb k _
    · exact pipeline_subset _ _ ((List.take_sublist k _).trans hsub)
        (mkInvalidity e qc) InvalidityResult.doc_number
  · intro e mc md cl kws ts dF dT ms k
    dsimp only [infringement_search]
    have hb : (compute_similarity e mc 100).length ≤ 100 :=
      top_candidates_length_le _ _
    have h2 := sub_filter_class e.patents (compute_similarity e mc 100) cl
    have h3 := sub_filter_date e.patents
      (filter_by_classification e.patents (compute_similarity e mc 100) cl) dF dT
    have h4 := sub_filter_keywords e.patents
      (filter_by_date e.patents
        (filter_by_classification e.patents (compute_similarity e mc 100) cl) dF dT) kws
    have h5 := sub_filter_title e.patents
      (filter_by_keywords e.patents
        (filter_by_date e.patents
          (filter_by_classification e.patents (compute_similarity e mc 100) cl) dF dT) kws) ts
    have h6 : List.Sublist
        ((filter_by_title e.patents
          (filter_by_keywords e.patents
            (filter_by_date e.patents
              (filter_by_classification e.patents (compute_similarity e mc 100) cl) dF dT)
            kws) ts).filter fun c => decide (ms ≤ c.2))
        (filter_by_title e.patents
          (filter_by_keywords e.patents
            (filter_by_date e.patents
              (filter_by_classification e.patents (compute_similarity e mc 100) cl) dF dT)
            kws) ts) := List.filter_sublist _
    have hsub := h6.trans (h5.trans (h4.trans (h3.trans h2)))
    constructor
    · exact pipeline_filtered_length_le _ _ hsub hb k _ _
    · exact pipeline_subset _ _
        ((List.filter_sublist _).trans ((List.take_sublist k _).trans hsub))
        (mkInfringement e mc (e.extractFeatures mc)) InfringementResult.doc_number
  · intro e idesc dra cl kws ts k
    dsimp only [patentability_search]
    have hb : (compute_similarity e
        (if dra.isEmpty then idesc else idesc ++ (' ' :: dra)) 100).length ≤ 100 :=
      top_candidates_length_le _ _
    have h2 := sub_filter_class e.patents
      (compute_similarity e (if dra.isEmpty then idesc else idesc ++ (' ' :: dra)) 100) cl
    have h3 := sub_filter_keywords e.patents
      (filter_by_classification e.patents
        (compute_similarity e (if dra.isEmpty then idesc else idesc ++ (' ' :: dra)) 100) cl) kws
    have h4 := sub_filter_title e.patents
      (filter_by_keywords e.patents
        (filter_by_classification e.patents
          (compute_similarity e (if dra.isEmpty then idesc else idesc ++ (' ' :: dra)) 100) cl)
        kws) ts
    have hsub := h4.trans (h3.trans h2)
    constructor
    · rw [List.length_map, List.enum_length, List.length_take]
      exact min_le_min (le_refl k) (hsub.length_le.trans hb)
    · intro x hx
      rcases List.mem_map.mp hx with ⟨r, hrres, rfl⟩
      rcases List.mem_map.mp hrres with ⟨ic, hic, rfl⟩
      have hc2 : ic.2 ∈ List.take k
          (filter_by_title e.patents
            (filter_by_keywords e.patents
              (filter_by_classification e.patents
                (compute_similarity e
                  (if dra.isEmpty then idesc else idesc ++ (' ' :: dra)) 100) cl) kws) ts) :=
        mem_enumFrom_snd _ 0 ic hic
      have hmem : ic.2 ∈ compute_similarity e
          (if dra.isEmpty then idesc else idesc ++ (' ' :: dra)) 100 :=
        ((List.take_sublist k _).trans hsub).subset hc2
      exact List.mem_map_of_mem _ hmem
  · intro e d cl k
    cases hsrc : get_patent_by_id e.patents d with
    | none =>
      have hse : search_by_patent_id e d cl k = (none, []) := by
        unfold search_by_patent_id
        rw [hsrc]
      rw [hse]
      exact ⟨Nat.zero_le _, fun src hs => nomatch hs⟩
    | some src0 =>
      have hb : (compute_similarity e (patent_id_query src0) 100).length ≤ 100 :=
        top_candidates_length_le _ _
      have h2 := sub_filter_class e.patents
        (compute_similarity e (patent_id_query src0) 100) cl
      have h3 : List.Sublist
          ((filter_by_classification e.patents
            (compute_similarity e (patent_id_query src0) 100) cl).filter
              fun c => decide (some c.1 ≠ docIndex e.patents src0.doc_number))
          (filter_by_classification e.patents
            (compute_similarity e (patent_id_query src0) 100) cl) :=
        List.filter_sublist _
      have hsub := h3.trans h2
      have hse : search_by_patent_id e d cl k =
          (some src0,
            (((filter_by_classification e.patents
              (compute_similarity e (patent_id_query src0) 100) cl).filter
                fun c => decide (some c.1 ≠ docIndex e.patents src0.doc_number)).take k).map
              (mkPatentId e (patent_id_query src0))) := by
        unfold search_by_patent_id
        rw [hsrc]
      rw [hse]
      constructor
      · exact pipeline_length_le _ _ hsub hb k _
      · intro src hs
        obtain rfl : src0 = src := by
          injection hs with h
        exact pipeline_subset _ _ ((List.take_sublist k _).trans hsub) _
          PatentIdSearchResult.doc_number

/-- Witness for C10 on the concrete two-record engine: a result document
number of the invalidity search, and one of the patent-ID search for
source record `pW1`, both come from the 100-candidate ranking. -/
theorem C10_top100_window_witness :
    (['A'] : Str) ∈ (compute_similarity egW ['q'] 100).map
        (fun c => (getP egW.patents c.1).doc_number) ∧
    (['B'] : Str) ∈ (compute_similarity egW (patent_id_query pW1) 100).map
        (fun c => (getP egW.patents c.1).doc_number) :=
  ⟨(C10_top100_window.1 egW ['q'] [] [] [] [] none 5).2 (by decide),
   (C10_top100_window.2.2.2 egW ['A'] [] 5).2 pW1 (by decide) (by decide)⟩
